import Mathlib

/-!
Verification of the NanoVNA S-A-A-2 control core of this repository:
sweep programming (`setup_sweep`), buffered capture (`capture_data_smart`),
fixed-layout record decoding (`parse_fifo_data`), frequency-axis assembly
(`linspace`) and the reciprocity-filled 2-port S-parameter set.

Machine integers are modelled as `Nat`/`Int` with explicit `% 256` byte
extraction; the Python complex arithmetic over integer-valued samples is
modelled exactly over `ℚ` (the claims under study are about the algebraic
relations, which the exact model captures).
-/

/-- One wire frame is a list of bytes.  A single-byte register WRITE frame is
`[0x20, addr, value]`, mirroring `bytes([0x20, i, start_bytes[i]])` in
`scripts/nanovna.py`. -/
def write_register (addr value : ℕ) : List ℕ :=
  [0x20, addr, value]

/-- The Python conversion of an integer to its little-endian bytes, namely
`int(v).to_bytes(len, little)`: the `len` little-endian bytes of
`v` (faithful for `v < 256 ^ len`, the range in which the source calls it). -/
def to_bytes (v len : ℕ) : List ℕ :=
  (List.range len).map (fun i => v / 256 ^ i % 256)

/-- `step_hz = (stop_hz - start_hz) / (points - 1) if points > 1 else 0` from
`NanoVNA_SAA2.setup_sweep` (integer division; the source truncates the float
quotient with `int(...)`). -/
def step_hz (start_hz stop_hz points : ℕ) : ℕ :=
  if 1 < points then (stop_hz - start_hz) / (points - 1) else 0

/-- The exact sequence of WRITE frames emitted by `NanoVNA_SAA2.setup_sweep`:
8 start-frequency bytes to `0x00..0x07`, 8 step-frequency bytes to
`0x10..0x17`, 2 point-count bytes to `0x20..0x21`, 2 bytes of the constant 1
(values per frequency) to `0x22..0x23`. -/
def setup_sweep (start_hz stop_hz points : ℕ) : List (List ℕ) :=
  let start_bytes := to_bytes start_hz 8
  let step_bytes := to_bytes (step_hz start_hz stop_hz points) 8
  let points_bytes := to_bytes points 2
  let values_bytes := to_bytes 1 2
  ((List.range 8).map fun i => write_register i (start_bytes.getD i 0))
    ++ ((List.range 8).map fun i => write_register (0x10 + i) (step_bytes.getD i 0))
    ++ [write_register 0x20 (points_bytes.getD 0 0),
        write_register 0x21 (points_bytes.getD 1 0)]
    ++ [write_register 0x22 (values_bytes.getD 0 0),
        write_register 0x23 (values_bytes.getD 1 0)]

/-- C1: for every sweep with `points ≥ 2` and `stop_hz > start_hz`, the
configuration emits exactly the WRITE frames `[0x20, addr, value]` carrying
the 8 little-endian bytes of `start_hz` to addresses `0x00..0x07`, then the
8 little-endian bytes of `step_hz = (stop_hz - start_hz) / (points - 1)` to
`0x10..0x17`, then the 2 little-endian bytes of `points` to `0x20..0x21`,
then the 2 little-endian bytes of the constant 1 to `0x22..0x23`, in that
order. -/
theorem setup_sweep_frames (start_hz stop_hz points : ℕ)
    (hp : 2 ≤ points) (hlt : start_hz < stop_hz) :
    setup_sweep start_hz stop_hz points =
      [[0x20, 0x00, start_hz % 256],
       [0x20, 0x01, start_hz / 256 % 256],
       [0x20, 0x02, start_hz / 256 ^ 2 % 256],
       [0x20, 0x03, start_hz / 256 ^ 3 % 256],
       [0x20, 0x04, start_hz / 256 ^ 4 % 256],
       [0x20, 0x05, start_hz / 256 ^ 5 % 256],
       [0x20, 0x06, start_hz / 256 ^ 6 % 256],
       [0x20, 0x07, start_hz / 256 ^ 7 % 256]]
      ++ [[0x20, 0x10, (stop_hz - start_hz) / (points - 1) % 256],
          [0x20, 0x11, (stop_hz - start_hz) / (points - 1) / 256 % 256],
          [0x20, 0x12, (stop_hz - start_hz) / (points - 1) / 256 ^ 2 % 256],
          [0x20, 0x13, (stop_hz - start_hz) / (points - 1) / 256 ^ 3 % 256],
          [0x20, 0x14, (stop_hz - start_hz) / (points - 1) / 256 ^ 4 % 256],
          [0x20, 0x15, (stop_hz - start_hz) / (points - 1) / 256 ^ 5 % 256],
          [0x20, 0x16, (stop_hz - start_hz) / (points - 1) / 256 ^ 6 % 256],
          [0x20, 0x17, (stop_hz - start_hz) / (points - 1) / 256 ^ 7 % 256]]
      ++ [[0x20, 0x20, points % 256], [0x20, 0x21, points / 256 % 256]]
      ++ [[0x20, 0x22, 1], [0x20, 0x23, 0]] := by
  have h1 : 1 < points := hp
  simp [setup_sweep, step_hz, to_bytes, write_register, List.range_succ, if_pos h1]

/-- C1 witness: the frame list for a concrete valid sweep. -/
theorem setup_sweep_frames_witness :
    setup_sweep 1000 3000 3 =
      [[0x20, 0x00, 1000 % 256],
       [0x20, 0x01, 1000 / 256 % 256],
       [0x20, 0x02, 1000 / 256 ^ 2 % 256],
       [0x20, 0x03, 1000 / 256 ^ 3 % 256],
       [0x20, 0x04, 1000 / 256 ^ 4 % 256],
       [0x20, 0x05, 1000 / 256 ^ 5 % 256],
       [0x20, 0x06, 1000 / 256 ^ 6 % 256],
       [0x20, 0x07, 1000 / 256 ^ 7 % 256]]
      ++ [[0x20, 0x10, (3000 - 1000) / (3 - 1) % 256],
          [0x20, 0x11, (3000 - 1000) / (3 - 1) / 256 % 256],
          [0x20, 0x12, (3000 - 1000) / (3 - 1) / 256 ^ 2 % 256],
          [0x20, 0x13, (3000 - 1000) / (3 - 1) / 256 ^ 3 % 256],
          [0x20, 0x14, (3000 - 1000) / (3 - 1) / 256 ^ 4 % 256],
          [0x20, 0x15, (3000 - 1000) / (3 - 1) / 256 ^ 5 % 256],
          [0x20, 0x16, (3000 - 1000) / (3 - 1) / 256 ^ 6 % 256],
          [0x20, 0x17, (3000 - 1000) / (3 - 1) / 256 ^ 7 % 256]]
      ++ [[0x20, 0x20, 3 % 256], [0x20, 0x21, 3 / 256 % 256]]
      ++ [[0x20, 0x22, 1], [0x20, 0x23, 0]] :=
  setup_sweep_frames 1000 3000 3 (by decide) (by decide)

/-- C6 counterexample: `configure(1_000_000, 100_000_000, 11)` never writes the
value `0xCA` claimed for address `0x01`; the little-endian bytes of
`1_000_000` are `40 42 0F 00 00 00 00 00`, not `00 CA 9A 3B 00 00 00 00`
(which encodes `1_000_000_000`). -/
theorem setup_sweep_example_no_CA_frame :
    [0x20, 0x01, 0xCA] ∉ setup_sweep 1000000 100000000 11 := by decide

/-- C6 amended: `configure(start_hz=1_000_000, stop_hz=100_000_000, points=11)`
computes `step_hz = 9_900_000`, and the register writes for the start
frequency are the byte sequence `40 42 0F 00 00 00 00 00` (the little-endian
encoding of `1_000_000`) at addresses `0x00..0x07`. -/
theorem setup_sweep_example_start_bytes :
    step_hz 1000000 100000000 11 = 9900000 ∧
      (setup_sweep 1000000 100000000 11).take 8 =
        [[0x20, 0x00, 0x40], [0x20, 0x01, 0x42], [0x20, 0x02, 0x0F],
         [0x20, 0x03, 0x00], [0x20, 0x04, 0x00], [0x20, 0x05, 0x00],
         [0x20, 0x06, 0x00], [0x20, 0x07, 0x00]] := by
  constructor <;> decide

/-- The configure-and-measure flow of `main` in `nanovna_original.py`:
user-entered start/stop in MHz and a point count are validated
(`start_mhz >= stop_mhz` rejected, `points < 2 or points > 1001` rejected)
before `setup_sweep` is reached; `none` models the `continue` branches in
which no frame is transmitted.  Frequencies are converted to Hz by `* 1e6`
and truncated by `int(...)` inside `setup_sweep`. -/
def main_configure (start_mhz stop_mhz : ℚ) (points : ℕ) : Option (List (List ℕ)) :=
  if stop_mhz ≤ start_mhz then none
  else if points < 2 ∨ 1001 < points then none
  else some (setup_sweep (start_mhz * 1000000).floor.toNat
      (stop_mhz * 1000000).floor.toNat points)

/-- C7: sweep configuration with `points < 2` or `stop_hz ≤ start_hz` is
rejected by the caller-side validation before any bytes are sent: for every
such invalid input no WRITE frame is transmitted. -/
theorem main_configure_rejects_invalid (start_mhz stop_mhz : ℚ) (points : ℕ)
    (h : points < 2 ∨ stop_mhz * 1000000 ≤ start_mhz * 1000000) :
    main_configure start_mhz stop_mhz points = none := by
  rcases h with hp | hf
  · unfold main_configure
    split
    · rfl
    · rw [if_pos (Or.inl hp)]
  · have : stop_mhz ≤ start_mhz := le_of_mul_le_mul_right hf (by norm_num)
    unfold main_configure
    rw [if_pos this]

/-- C7 witness: a one-point sweep request transmits no frame. -/
theorem main_configure_rejects_invalid_witness :
    main_configure 1 100 1 = none :=
  main_configure_rejects_invalid 1 100 1 (Or.inl (by decide))

/-- Exact rational model of a Python `complex` value whose real and imaginary
parts arise from integer samples and their quotients. -/
structure CQ where
  re : ℚ
  im : ℚ
deriving DecidableEq

/-- Complex division `x / y` as Python computes it on `complex` values:
multiply by the conjugate and divide by `|y|^2`. -/
def CQ.div (x y : CQ) : CQ :=
  ⟨(x.re * y.re + x.im * y.im) / (y.re ^ 2 + y.im ^ 2),
   (x.im * y.re - x.re * y.im) / (y.re ^ 2 + y.im ^ 2)⟩

/-- The zero complex value `complex(0, 0)`. -/
def CQ.zero : CQ := ⟨0, 0⟩

/-- Reinterpretation of an unsigned 32-bit value in two-complement form, as
the signed `struct.unpack` read performs on the 4 assembled bytes. -/
def toInt32 (v : ℕ) : ℤ :=
  if v < 2 ^ 31 then (v : ℤ) else (v : ℤ) - 2 ^ 32

/-- Little-endian value of a byte list, least-significant byte first. -/
def leVal : List ℕ → ℕ
  | [] => 0
  | b :: bs => b + 256 * leVal bs

/-- Read `n` bytes at offset `off` of `buf` as an unsigned little-endian
integer; `none` when the slice `buf[off:off+n]` is too short for
`struct.unpack` (out of bounds). -/
def readLE (buf : List ℕ) (off n : ℕ) : Option ℕ :=
  if off + n ≤ buf.length then some (leVal ((buf.drop off).take n)) else none

/-- One decoded FIFO sample: the `freq_index`, `s11` and `s21` fields of the
dict built by `NanoVNA_SAA2._parse_fifo_data` (the magnitude/phase entries of
that dict are derived views of `s11`/`s21` and are not modelled). -/
structure FifoSample where
  freq_index : ℕ
  s11 : CQ
  s21 : CQ
deriving DecidableEq

/-- `NanoVNA_SAA2._parse_fifo_data`: a 32-byte chunk is decoded into six
little-endian `int32` fields at offsets 0,4,8,12,16,20 and a little-endian
`uint16` at offset 24; the raw reverse channels are divided by the forward
reference when `abs(reference) > 1e-6` (stated on squares:
`re^2 + im^2 > 1e-12`, which is exact), else both S-parameters are zero.
`none` models the `return None` paths (length mismatch or decode error). -/
def parse_fifo_data (chunk : List ℕ) : Option FifoSample :=
  if chunk.length = 32 then
    (readLE chunk 0 4).bind fun fwd0_re =>
    (readLE chunk 4 4).bind fun fwd0_im =>
    (readLE chunk 8 4).bind fun rev0_re =>
    (readLE chunk 12 4).bind fun rev0_im =>
    (readLE chunk 16 4).bind fun rev1_re =>
    (readLE chunk 20 4).bind fun rev1_im =>
    (readLE chunk 24 2).bind fun freq_index =>
      let reference : CQ := ⟨(toInt32 fwd0_re : ℚ), (toInt32 fwd0_im : ℚ)⟩
      let s11_raw : CQ := ⟨(toInt32 rev0_re : ℚ), (toInt32 rev0_im : ℚ)⟩
      let s21_raw : CQ := ⟨(toInt32 rev1_re : ℚ), (toInt32 rev1_im : ℚ)⟩
      if 1 / 1000000000000 < reference.re ^ 2 + reference.im ^ 2 then
        some ⟨freq_index, s11_raw.div reference, s21_raw.div reference⟩
      else
        some ⟨freq_index, CQ.zero, CQ.zero⟩
  else none

/-- Spec-side reading of a little-endian signed 32-bit integer at byte offset
`off` of a record, written positionally as the claims state it. -/
def i32_at (chunk : List ℕ) (off : ℕ) : ℤ :=
  toInt32 (chunk.getD off 0 + 256 * chunk.getD (off + 1) 0
    + 65536 * chunk.getD (off + 2) 0 + 16777216 * chunk.getD (off + 3) 0)

/-- Spec-side reading of a little-endian unsigned 16-bit integer at byte
offset `off` of a record. -/
def u16_at (chunk : List ℕ) (off : ℕ) : ℕ :=
  chunk.getD off 0 + 256 * chunk.getD (off + 1) 0

/-- A slice of four consecutive bytes, written via `drop`/`take` as the
decoder computes it, equals the positional list of its elements. -/
theorem take_four_drop (l : List ℕ) (o : ℕ) (h : o + 4 ≤ l.length) :
    (l.drop o).take 4 =
      [l.getD o 0, l.getD (o + 1) 0, l.getD (o + 2) 0, l.getD (o + 3) 0] := by
  have h0 : o < l.length := by omega
  have h1 : o + 1 < l.length := by omega
  have h2 : o + 2 < l.length := by omega
  have h3 : o + 3 < l.length := by omega
  rw [List.drop_eq_getElem_cons h0, List.drop_eq_getElem_cons h1,
    List.drop_eq_getElem_cons h2, List.drop_eq_getElem_cons h3,
    List.getD_eq_getElem l 0 h0, List.getD_eq_getElem l 0 h1,
    List.getD_eq_getElem l 0 h2, List.getD_eq_getElem l 0 h3]
  rfl

/-- A slice of two consecutive bytes equals the positional list of its
elements. -/
theorem take_two_drop (l : List ℕ) (o : ℕ) (h : o + 2 ≤ l.length) :
    (l.drop o).take 2 = [l.getD o 0, l.getD (o + 1) 0] := by
  have h0 : o < l.length := by omega
  have h1 : o + 1 < l.length := by omega
  rw [List.drop_eq_getElem_cons h0, List.drop_eq_getElem_cons h1,
    List.getD_eq_getElem l 0 h0, List.getD_eq_getElem l 0 h1]
  rfl

/-- A 4-byte little-endian read inside the record bounds succeeds and yields
the positional byte combination used by the spec-side `i32_at`. -/
theorem readLE_four (chunk : List ℕ) (off : ℕ) (h : off + 4 ≤ chunk.length) :
    readLE chunk off 4 =
      some (chunk.getD off 0 + 256 * chunk.getD (off + 1) 0
        + 65536 * chunk.getD (off + 2) 0 + 16777216 * chunk.getD (off + 3) 0) := by
  unfold readLE
  rw [if_pos h, take_four_drop chunk off h]
  simp [leVal]
  ring

/-- A 2-byte little-endian read inside the record bounds succeeds. -/
theorem readLE_two (chunk : List ℕ) (off : ℕ) (h : off + 2 ≤ chunk.length) :
    readLE chunk off 2 =
      some (chunk.getD off 0 + 256 * chunk.getD (off + 1) 0) := by
  unfold readLE
  rw [if_pos h, take_two_drop chunk off h]
  simp [leVal]

/-- Full evaluation of the decoder on any complete 32-byte chunk: the seven
fields are extracted at their fixed offsets and the guarded division is
applied. -/
theorem parse_fifo_data_eq (chunk : List ℕ) (h : chunk.length = 32) :
    parse_fifo_data chunk =
      (if 1 / 1000000000000 <
          (i32_at chunk 0 : ℚ) ^ 2 + (i32_at chunk 4 : ℚ) ^ 2 then
        some ⟨u16_at chunk 24,
          CQ.div ⟨(i32_at chunk 8 : ℚ), (i32_at chunk 12 : ℚ)⟩
            ⟨(i32_at chunk 0 : ℚ), (i32_at chunk 4 : ℚ)⟩,
          CQ.div ⟨(i32_at chunk 16 : ℚ), (i32_at chunk 20 : ℚ)⟩
            ⟨(i32_at chunk 0 : ℚ), (i32_at chunk 4 : ℚ)⟩⟩
      else some ⟨u16_at chunk 24, CQ.zero, CQ.zero⟩) := by
  unfold parse_fifo_data
  rw [if_pos h, readLE_four chunk 0 (by omega), readLE_four chunk 4 (by omega),
    readLE_four chunk 8 (by omega), readLE_four chunk 12 (by omega),
    readLE_four chunk 16 (by omega), readLE_four chunk 20 (by omega),
    readLE_two chunk 24 (by omega)]
  simp only [Option.some_bind, i32_at, u16_at]

/-- C2: every 32-byte record decodes its six little-endian signed 32-bit
integers at offsets 0,4,8,12,16,20 and the little-endian unsigned 16-bit
`freq_index` at offset 24, and when the forward reference has magnitude above
`1e-6` the sample satisfies `S11 = (rev1_re + i rev1_im) / (fwd_re + i fwd_im)`
and `S21 = (rev2_re + i rev2_im) / (fwd_re + i fwd_im)`. -/
theorem parse_fifo_data_layout (chunk : List ℕ) (h : chunk.length = 32)
    (hg : 1 / 1000000000000 <
      (i32_at chunk 0 : ℚ) ^ 2 + (i32_at chunk 4 : ℚ) ^ 2) :
    parse_fifo_data chunk =
      some ⟨u16_at chunk 24,
        CQ.div ⟨(i32_at chunk 8 : ℚ), (i32_at chunk 12 : ℚ)⟩
          ⟨(i32_at chunk 0 : ℚ), (i32_at chunk 4 : ℚ)⟩,
        CQ.div ⟨(i32_at chunk 16 : ℚ), (i32_at chunk 20 : ℚ)⟩
          ⟨(i32_at chunk 0 : ℚ), (i32_at chunk 4 : ℚ)⟩⟩ := by
  rw [parse_fifo_data_eq chunk h, if_pos hg]

/-- C2 witness: a record with forward reference `2+0i`, `rev1 = 4+0i`,
`rev2 = 6+0i` and `freq_index = 5` decodes to `S11 = 2`, `S21 = 3`. -/
theorem parse_fifo_data_layout_witness :
    parse_fifo_data
        [2, 0, 0, 0, 0, 0, 0, 0, 4, 0, 0, 0, 0, 0, 0, 0,
         6, 0, 0, 0, 0, 0, 0, 0, 5, 0, 0, 0, 0, 0, 0, 0] =
      some ⟨5, ⟨2, 0⟩, ⟨3, 0⟩⟩ := by
  rw [parse_fifo_data_layout _ (by decide) (by norm_num [i32_at, toInt32])]
  simp [i32_at, u16_at, toInt32, CQ.div]
  norm_num

/-- C4: a 32-byte record whose forward reference has magnitude at most the
threshold `1e-6` (with integer components, exactly the zero reference)
decodes to `S11 = S21 = 0 + 0i`, whatever the reverse channels hold. -/
theorem parse_fifo_data_zero_reference (chunk : List ℕ) (h : chunk.length = 32)
    (hg : (i32_at chunk 0 : ℚ) ^ 2 + (i32_at chunk 4 : ℚ) ^ 2
      ≤ 1 / 1000000000000) :
    parse_fifo_data chunk = some ⟨u16_at chunk 24, CQ.zero, CQ.zero⟩ := by
  rw [parse_fifo_data_eq chunk h, if_neg (not_lt.mpr hg)]

/-- C4 witness: a zero forward reference with nonzero reverse channels decodes
to zero S-parameters. -/
theorem parse_fifo_data_zero_reference_witness :
    parse_fifo_data
        [0, 0, 0, 0, 0, 0, 0, 0, 7, 0, 0, 0, 1, 0, 0, 0,
         9, 0, 0, 0, 2, 0, 0, 0, 3, 1, 0, 0, 0, 0, 0, 0] =
      some ⟨259, CQ.zero, CQ.zero⟩ := by
  rw [parse_fifo_data_zero_reference _ (by decide) (by norm_num [i32_at, toInt32])]
  simp [u16_at]

/-- Totality of the decoder on complete chunks, shared helper. -/
theorem parse_fifo_data_isSome (chunk : List ℕ) (h : chunk.length = 32) :
    (parse_fifo_data chunk).isSome = true := by
  rw [parse_fifo_data_eq chunk h]
  split <;> rfl

/-- C10: decoding never fails on a complete 32-byte chunk: every fixed-offset
field extraction is in bounds and the guarded division cannot raise, so a
sample is returned for every complete chunk. -/
theorem parse_fifo_data_total (chunk : List ℕ) (h : chunk.length = 32) :
    (parse_fifo_data chunk).isSome = true :=
  parse_fifo_data_isSome chunk h

/-- C10 witness: the all-zero 32-byte chunk decodes to a sample. -/
theorem parse_fifo_data_total_witness :
    (parse_fifo_data (List.replicate 32 0)).isSome = true :=
  parse_fifo_data_total (List.replicate 32 0) (by decide)

/-- The chunking loop of `capture_data_smart`: walk the captured buffer in
steps of 32 bytes, decode each complete 32-byte chunk, skip a would-be `None`
and discard any trailing chunk shorter than 32 bytes. -/
def decode_buffer (buf : List ℕ) : List FifoSample :=
  if h : 32 ≤ buf.length then
    match parse_fifo_data (buf.take 32) with
    | some s => s :: decode_buffer (buf.drop 32)
    | none => decode_buffer (buf.drop 32)
  else []
termination_by buf.length
decreasing_by all_goals simp; omega

/-- Unfolding equation of `decode_buffer` in the complete-chunk case: the
decoded sample is always consed (the decoder is total on 32-byte chunks). -/
theorem decode_buffer_cons (buf : List ℕ) (h : 32 ≤ buf.length) :
    ∃ s, parse_fifo_data (buf.take 32) = some s ∧
      decode_buffer buf = s :: decode_buffer (buf.drop 32) := by
  have ht : (buf.take 32).length = 32 := by
    simp [List.length_take]
    omega
  obtain ⟨s, hs⟩ := Option.isSome_iff_exists.mp (parse_fifo_data_isSome _ ht)
  refine ⟨s, hs, ?_⟩
  rw [decode_buffer, dif_pos h, hs]

/-- C3: decoding partitions the buffer into consecutive 32-byte chunks,
discards any short trailing chunk, and produces exactly one sample per
complete chunk, i.e. `⌊length / 32⌋` samples; in particular a 64-byte buffer
decodes to exactly 2 samples and a 70-byte buffer also decodes to exactly 2
samples with the trailing 6 bytes discarded. -/
theorem decode_buffer_length (buf : List ℕ) :
    (decode_buffer buf).length = buf.length / 32 := by
  by_cases h : 32 ≤ buf.length
  · obtain ⟨s, _, he⟩ := decode_buffer_cons buf h
    have ih := decode_buffer_length (buf.drop 32)
    rw [he]
    simp only [List.length_cons, ih, List.length_drop]
    omega
  · rw [decode_buffer, dif_neg h]
    simp
    omega
termination_by buf.length
decreasing_by simp; omega

/-- The bounded polling loop of `capture_data_smart`: `fuel` remaining
attempts (5 at the start), `attempt` read commands issued so far, `acc` the
accumulation buffer.  Each attempt issues one READFIFO and appends whatever
the transport returns; after a non-empty read the loop stops early once
`target` (= `expected_points * 32`) bytes have accumulated.  The result pairs
the accumulated buffer with the number of read attempts issued. -/
def capture_loop (read : ℕ → List ℕ) (target : ℕ) :
    ℕ → ℕ → List ℕ → List ℕ × ℕ
  | 0, attempt, acc => (acc, attempt)
  | fuel + 1, attempt, acc =>
    let block := read attempt
    if block = [] then capture_loop read target fuel (attempt + 1) acc
    else
      let acc2 := acc ++ block
      if target ≤ acc2.length then (acc2, attempt + 1)
      else capture_loop read target fuel (attempt + 1) acc2

/-- The read phase of `capture_data_smart`: at most 5 attempts against the
transport `read`, targeting `expected_points * 32` bytes. -/
def capture_data_smart (read : ℕ → List ℕ) (expected_points : ℕ) :
    List ℕ × ℕ :=
  capture_loop read (expected_points * 32) 5 0 []

/-- Helper: total bytes returned by the first `k` read attempts. -/
def read_total (read : ℕ → List ℕ) (k : ℕ) : List ℕ :=
  (List.range k).map read |>.flatten

theorem read_total_succ (read : ℕ → List ℕ) (k : ℕ) :
    read_total read (k + 1) = read_total read k ++ read k := by
  simp [read_total, List.range_succ]

/-- Monotonicity of the accumulated byte count in the attempt count. -/
theorem read_total_mono (read : ℕ → List ℕ) {a b : ℕ} (h : a ≤ b) :
    (read_total read a).length ≤ (read_total read b).length := by
  induction b with
  | zero => simp_all
  | succ n ih =>
    rcases Nat.lt_or_ge a (n + 1) with hlt | hge
    · have := ih (by omega)
      rw [read_total_succ]
      simp
      omega
    · have : a = n + 1 := by omega
      simp [this]

/-- Loop invariant: starting from an accumulation equal to the bytes of the
first `attempt` reads, the loop issues at most `fuel` further reads and
returns exactly the bytes of its first `result.2` reads. -/
theorem capture_loop_spec (read : ℕ → List ℕ) (target : ℕ) :
    ∀ fuel attempt acc, acc = read_total read attempt →
      (capture_loop read target fuel attempt acc).1 =
          read_total read (capture_loop read target fuel attempt acc).2 ∧
        attempt ≤ (capture_loop read target fuel attempt acc).2 ∧
        (capture_loop read target fuel attempt acc).2 ≤ attempt + fuel := by
  intro fuel
  induction fuel with
  | zero => intro attempt acc hacc; simpa [capture_loop] using hacc
  | succ n ih =>
    intro attempt acc hacc
    unfold capture_loop
    by_cases hb : read attempt = []
    · rw [if_pos hb]
      have hacc2 : acc = read_total read (attempt + 1) := by
        rw [read_total_succ, hb, List.append_nil, hacc]
      obtain ⟨h1, h2, h3⟩ := ih (attempt + 1) acc hacc2
      exact ⟨h1, by omega, by omega⟩
    · rw [if_neg hb]
      have hacc2 : acc ++ read attempt = read_total read (attempt + 1) := by
        rw [read_total_succ, hacc]
      by_cases ht : target ≤ (acc ++ read attempt).length
      · rw [if_pos ht]
        exact ⟨hacc2.symm ▸ rfl, by omega, by omega⟩
      · rw [if_neg ht]
        obtain ⟨h1, h2, h3⟩ := ih (attempt + 1) (acc ++ read attempt) hacc2
        exact ⟨h1, by omega, by omega⟩

/-- Before the target is reached, the attempt counter cannot have passed any
attempt whose cumulative bytes meet the target. -/
theorem capture_attempt_le (read : ℕ → List ℕ) (target k attempt : ℕ)
    (hk : target ≤ (read_total read (k + 1)).length)
    (hlen : (read_total read attempt).length < target) : attempt ≤ k := by
  by_contra hgt
  have : k + 1 ≤ attempt := by omega
  have := read_total_mono read this
  omega

/-- Early stop: as soon as some read attempt brings the accumulation up to
the target, the loop issues no further read. -/
theorem capture_loop_early (read : ℕ → List ℕ) (target : ℕ) (k : ℕ)
    (hk : target ≤ (read_total read (k + 1)).length) :
    ∀ fuel attempt acc, acc = read_total read attempt →
      acc.length < target →
      (capture_loop read target fuel attempt acc).2 ≤ k + 1 := by
  intro fuel
  induction fuel with
  | zero =>
    intro attempt acc hacc hlen
    have := capture_attempt_le read target k attempt hk (hacc ▸ hlen)
    simp [capture_loop]
    omega
  | succ n ih =>
    intro attempt acc hacc hlen
    unfold capture_loop
    by_cases hb : read attempt = []
    · rw [if_pos hb]
      exact ih (attempt + 1) acc
        (by rw [read_total_succ, hb, List.append_nil, hacc]) hlen
    · rw [if_neg hb]
      have hacc2 : acc ++ read attempt = read_total read (attempt + 1) := by
        rw [read_total_succ, hacc]
      by_cases ht : target ≤ (acc ++ read attempt).length
      · rw [if_pos ht]
        have := capture_attempt_le read target k attempt hk (hacc ▸ hlen)
        simp
        omega
      · rw [if_neg ht]
        exact ih (attempt + 1) (acc ++ read attempt) hacc2 (by omega)

/-- With a transport whose every read yields nothing, nothing accumulates. -/
theorem read_total_empty (k : ℕ) : read_total (fun _ => ([] : List ℕ)) k = [] := by
  induction k with
  | zero => rfl
  | succ n ih => rw [read_total_succ, ih]; rfl

/-- C5: the capture loop performs at most 5 read attempts and always
terminates; for every transport it returns exactly the bytes accumulated over
the attempts it issued (an empty buffer when every read returns 0 bytes), and
for a sweep of at least one point it stops early as soon as the accumulated
length reaches `expected_points * 32` bytes. -/
theorem capture_data_smart_bounded (read : ℕ → List ℕ) (expected_points : ℕ) :
    (capture_data_smart read expected_points).2 ≤ 5 ∧
      (capture_data_smart read expected_points).1 =
        read_total read (capture_data_smart read expected_points).2 ∧
      ((∀ j, read j = []) → (capture_data_smart read expected_points).1 = []) ∧
      (∀ k, 1 ≤ expected_points →
        expected_points * 32 ≤ (read_total read (k + 1)).length →
        (capture_data_smart read expected_points).2 ≤ k + 1) := by
  unfold capture_data_smart
  obtain ⟨h1, _, h3⟩ :=
    capture_loop_spec read (expected_points * 32) 5 0 [] (by rfl)
  refine ⟨by omega, h1, ?_, ?_⟩
  · intro hempty
    have hr : read = fun _ => ([] : List ℕ) := funext hempty
    rw [h1, hr, read_total_empty]
  · intro k hp hk
    exact capture_loop_early read (expected_points * 32) k hk 5 0 []
      (by rfl) (by simp; omega)

/-- C5 witness: the all-empty transport terminates with an empty buffer in at
most 5 attempts, and a transport delivering a full record on the first read
of a one-point sweep stops after that first attempt. -/
theorem capture_data_smart_bounded_witness :
    (capture_data_smart (fun _ => []) 3).1 = [] ∧
      (capture_data_smart (fun _ => []) 3).2 ≤ 5 ∧
      (capture_data_smart (fun _ => List.replicate 32 0) 1).2 ≤ 1 :=
  ⟨(capture_data_smart_bounded (fun _ => []) 3).2.2.1 (fun _ => rfl),
   (capture_data_smart_bounded (fun _ => []) 3).1,
   (capture_data_smart_bounded (fun _ => List.replicate 32 0) 1).2.2.2 0
     (by decide) (by decide)⟩


/-- The sample value at index `i` of an `n`-point frequency axis from `a` to
`b`: `a + (b - a) * i / (n - 1)`. -/
def linspace_at (a b : ℚ) (n i : ℕ) : ℚ :=
  a + (b - a) * (i : ℚ) / ((n : ℚ) - 1)

/-- `np.linspace(start, stop, n)` as used to rebuild the frequency axis from
the captured sample count (`plot_results` / `capture_data_smart`): `n` evenly
spaced values from `start` to `stop` inclusive. -/
def linspace (a b : ℚ) (n : ℕ) : List ℚ :=
  if n = 0 then []
  else if n = 1 then [a]
  else (List.range n).map (linspace_at a b n)

/-- C8: assembling `n` captured samples with sweep bounds `start ≤ stop`
yields a frequency axis of length exactly `n`, monotonically non-decreasing,
whose first value is `start` and whose last value is `stop` when `n ≥ 2`. -/
theorem linspace_axis (a b : ℚ) (n : ℕ) :
    (linspace a b n).length = n ∧
      (a ≤ b → (linspace a b n).Chain' (· ≤ ·)) ∧
      (2 ≤ n → (linspace a b n).head? = some a ∧
        (linspace a b n).getLast? = some b) := by
  by_cases h0 : n = 0
  · subst h0; simp [linspace]
  by_cases h1 : n = 1
  · subst h1; simp [linspace]
  obtain ⟨m, rfl⟩ : ∃ m, n = m + 2 := by
    refine ⟨n - 2, ?_⟩
    omega
  have hm1 : (((m + 2 : ℕ) : ℚ)) - 1 = (m : ℚ) + 1 := by push_cast; ring
  have hpos : (0 : ℚ) < (m : ℚ) + 1 := by positivity
  refine ⟨?_, ?_, ?_⟩
  · simp [linspace]
  · intro hab
    have hba : (0 : ℚ) ≤ b - a := by linarith
    simp only [linspace, if_neg h0, if_neg h1]
    rw [List.chain'_map, show m + 2 = Nat.succ (m + 1) from rfl,
      List.chain'_range_succ]
    intro i _
    unfold linspace_at
    rw [hm1]
    have hnum : (b - a) * (i : ℚ) ≤ (b - a) * ((Nat.succ i : ℕ) : ℚ) := by
      have : ((i : ℚ)) ≤ ((Nat.succ i : ℕ) : ℚ) := by push_cast; linarith
      nlinarith
    have := (div_le_div_iff_of_pos_right hpos).mpr hnum
    linarith
  · intro _
    constructor
    · simp only [linspace, if_neg h0, if_neg h1]
      rw [List.range_succ_eq_map]
      simp [linspace_at]
    · simp only [linspace, if_neg h0, if_neg h1]
      rw [show m + 2 = (m + 1) + 1 from rfl, List.range_succ, List.map_append]
      simp only [List.map_cons, List.map_nil, List.getLast?_concat]
      unfold linspace_at
      rw [hm1]
      push_cast
      rw [mul_div_assoc, div_self (by positivity)]
      ring_nf

/-- C8 witness: the 3-point axis from 1 to 5. -/
theorem linspace_axis_witness :
    (linspace 1 5 3).length = 3 ∧ (linspace 1 5 3).Chain' (· ≤ ·) ∧
      (linspace 1 5 3).head? = some 1 ∧ (linspace 1 5 3).getLast? = some 5 :=
  ⟨(linspace_axis 1 5 3).1, (linspace_axis 1 5 3).2.1 (by norm_num),
   ((linspace_axis 1 5 3).2.2 (by norm_num)).1,
   ((linspace_axis 1 5 3).2.2 (by norm_num)).2⟩

/-- The four S-parameter sequences stored by
`VNAMeasurement._process_measurement_data`: the measured `S11`/`S21` plus the
derived `S12 = S21` (reciprocity) and `S22 = S11` (symmetry). -/
structure SParams where
  S11 : List CQ
  S21 : List CQ
  S12 : List CQ
  S22 : List CQ
deriving DecidableEq

/-- The stored dictionary maps key S11 to `s11`, S21 to `s21`, and the
derived keys S12 to `s21` and S22 to `s11`. -/
def process_measurement_data (s11 s21 : List CQ) : SParams :=
  ⟨s11, s21, s21, s11⟩

/-- The Touchstone matrix filled by `save_s2p_file` for the frequency point
`k`: `s_matrix[:,0,0] = S11`, `s_matrix[:,1,0] = S21`, `s_matrix[:,0,1] = S12`,
`s_matrix[:,1,1] = S22`. -/
def s_matrix (p : SParams) (k i j : ℕ) : CQ :=
  if i = 0 ∧ j = 0 then p.S11.getD k CQ.zero
  else if i = 1 ∧ j = 0 then p.S21.getD k CQ.zero
  else if i = 0 ∧ j = 1 then p.S12.getD k CQ.zero
  else p.S22.getD k CQ.zero

/-- C9: in every assembled 2-port measurement the derived `S12` sequence is
identical to the measured `S21` sequence and the derived `S22` sequence is
identical to the measured `S11` sequence, and the Touchstone S-matrix carries
`S21` at position `[0,1]` and `S11` at position `[1,1]` for every frequency
point. -/
theorem process_measurement_reciprocity (s11 s21 : List CQ) :
    (process_measurement_data s11 s21).S12 =
        (process_measurement_data s11 s21).S21 ∧
      (process_measurement_data s11 s21).S22 =
        (process_measurement_data s11 s21).S11 ∧
      (∀ k, s_matrix (process_measurement_data s11 s21) k 0 1 =
          s21.getD k CQ.zero ∧
        s_matrix (process_measurement_data s11 s21) k 1 1 =
          s11.getD k CQ.zero) := by
  refine ⟨rfl, rfl, fun k => ⟨?_, ?_⟩⟩ <;> simp [s_matrix, process_measurement_data]
